import Mathlib

/-!
# A shallow embedding of `src/main.c` ("write a shell in C")

This file embeds the C functions of the shell's single source file
`src/main.c` as Lean definitions and proves properties about them.

Conventions of the embedding:
* C `int` return values are `Nat` (the signals used are only `0`/`1`:
  `1` means "continue", `0` means "stop", exactly as the C code's doc
  comments state).
* The input stream consumed by `getchar` is a `List Char`; end of stream
  (`EOF`) is the end of the list.
* Memory allocation (`malloc` / `realloc`) is modelled by an oracle
  `Nat → Bool`: the `k`-th allocation the function performs succeeds iff
  the oracle answers `true` at `k`.  A failed allocation makes the C code
  print to `stderr` and call `exit(EXIT_FAILURE)`; this process
  termination is modelled as the `Except.error` constructor carrying the
  message and the exit status, while a normal return of the function is
  `Except.ok`.
* Messages printed to `stderr` are modelled by `ErrMsg`: a fixed
  `fprintf(stderr, ...)` string, or a `perror(s)` call (whose full text
  depends on `errno` and is not modelled beyond its fixed first argument).
* OS effects (`fork`, `execvp`, `waitpid`, `chdir`) are modelled by
  explicit parameters describing the outcome the OS produces.
-/

/-- The constant `EXIT_FAILURE` of `<stdlib.h>`. -/
def EXIT_FAILURE : Nat := 1

/-- The constant `EXIT_SUCCESS` of `<stdlib.h>`. -/
def EXIT_SUCCESS : Nat := 0

/-- A message written to `stderr`: either a fixed `fprintf(stderr, s)`
string, or a `perror(s)` call with its fixed argument `s` (the OS appends
`strerror(errno)`, which is not modelled). -/
inductive ErrMsg where
  | fixed (s : String)
  | perrorCall (s : String)
deriving DecidableEq, Repr

/-- A fatal process termination: the message printed to `stderr` and the
exit status passed to `exit`. -/
structure Fatal where
  msg : String
  status : Nat
deriving DecidableEq, Repr

/-! ## Builtins (`src/main.c` lines 37–111) -/

/-- The array `builtin_str` (lines 48–52): the builtin command names. -/
def builtin_str : List String := ["cd", "help", "exit"]

/-- The function `sh_num_builtins` (lines 60–62). -/
def sh_num_builtins : Nat := builtin_str.length

/-- The builtin `sh_cd` (lines 74–83).  `args` is the null-terminated argument array,
modelled as a `List String`; `args[1] == NULL` is `args[1]? = none`.
The OS call `chdir(args[1])` is modelled by `os : String → Option String`,
returning the new working directory on success and `none` on failure
(nonzero return); `cwd` is the process working directory before the call.
Result: (return value, working directory after the call, stderr output). -/
def sh_cd (os : String → Option String) (cwd : String) (args : List String) :
    Nat × String × List ErrMsg :=
  match args[1]? with
  | none => (1, cwd, [ErrMsg.fixed "sh: expected argument to \"cd\"\n"])
  | some dir =>
    match os dir with
    | none => (1, cwd, [ErrMsg.perrorCall "sh"])
    | some newCwd => (1, newCwd, [])

/-- The builtin `sh_help` (lines 90–102): prints a banner and the builtin names to
stdout and returns 1.  Result: (return value, lines printed to stdout). -/
def sh_help (args : List String) : Nat × List String :=
  (1, ["SH\\m", "Type program names and arguments, and hit enter.\n",
       "The following are built in:\n"]
      ++ builtin_str.map (fun s => "  " ++ s ++ "\n")
      ++ ["Use the man command for information on other programs.\n"])

/-- The builtin `sh_exit` (lines 109–111): returns 0 unconditionally; `args` is not
examined. -/
def sh_exit (args : List String) : Nat :=
  0

/-! ## Process launcher (`src/main.c` lines 152–174) -/

/-- The status stored by one `waitpid` call, as inspected through the
`WIFEXITED` / `WIFSIGNALED` / `WIFSTOPPED` macros: the child exited
normally with a code, was terminated by a signal, or merely stopped
(delivered because `sh_launch` passes `WUNTRACED`). -/
inductive WaitStatus where
  | exited (code : Nat)
  | signaled (sig : Nat)
  | stopped (sig : Nat)
deriving DecidableEq, Repr

/-- The macro `WIFEXITED(status)`. -/
def WIFEXITED : WaitStatus → Bool
  | .exited _ => true
  | _ => false

/-- The macro `WIFSIGNALED(status)`. -/
def WIFSIGNALED : WaitStatus → Bool
  | .signaled _ => true
  | _ => false

/-- The `do { wpid = waitpid(pid, &status, WUNTRACED); } while
(!WIFEXITED(status) && !WIFSIGNALED(status));` loop of `sh_launch`
(lines 168–170).  `waits` is the sequence of statuses successive
`waitpid(pid, ...)` calls on the one forked child store into `status`
(every call names the same specific `pid`); the loop ends at the first
status for which `WIFEXITED || WIFSIGNALED` holds and that status is
returned.  If the sequence is exhausted first, the parent is still
blocked in `waitpid` and the loop has not ended: `none`. -/
def sh_wait_loop : List WaitStatus → Option WaitStatus
  | [] => none
  | s :: rest =>
    if !WIFEXITED s && !WIFSIGNALED s then sh_wait_loop rest else some s

/-- The outcome `fork()` produces for the caller: this copy is the child
(`fork` returned 0), the fork failed (`fork` returned < 0), or this copy
is the parent of child `pid`. -/
inductive ForkRes where
  | child
  | failed
  | parent (pid : Nat)
deriving DecidableEq, Repr

/-- How one invocation of `sh_launch` ends, from the point of view of the
process that called it. -/
inductive LaunchOutcome where
  /-- The function returns the value `sig` to its caller, having written
  `errs` to `stderr`. -/
  | ret (sig : Nat) (errs : List ErrMsg)
  /-- The child process terminates via `exit(status)` after writing
  `errs` to `stderr`; control never returns to the shell code. -/
  | childExit (status : Nat) (errs : List ErrMsg)
  /-- Call to `execvp` succeeded: the child's program image is replaced by
  `prog` with argument vector `args`; control never returns. -/
  | execed (prog : String) (args : List String)
  /-- The parent is still blocked in `waitpid` (the modelled status
  sequence was exhausted without a termination status). -/
  | blockedInWait
deriving DecidableEq, Repr

/-- The launcher `sh_launch` (lines 152–174).  `forkRes` is the outcome `fork()`
produces for this process; `execOk` tells whether `execvp(args[0], args)`
succeeds (on success it never returns; on failure it returns -1);
`waits` is the status sequence for the `waitpid` loop (see
`sh_wait_loop`).  `args.headD ""` is `args[0]`. -/
def sh_launch (args : List String) (forkRes : ForkRes) (execOk : Bool)
    (waits : List WaitStatus) : LaunchOutcome :=
  match forkRes with
  | .child =>
    -- Child process: execvp, then (only reached on failure) perror and
    -- exit(EXIT_FAILURE).
    if execOk then
      .execed (args.headD "") args
    else
      .childExit EXIT_FAILURE [ErrMsg.perrorCall "sh"]
  | .failed =>
    -- Error forking: perror("sh"); then fall through to return 1.
    .ret 1 [ErrMsg.perrorCall "sh"]
  | .parent _ =>
    -- Parent process: wait loop, then return 1.
    match sh_wait_loop waits with
    | some _ => .ret 1 []
    | none => .blockedInWait

/-! ## Tokenizer (`src/main.c` lines 190–227) -/

/-- The constant `SH_TOK_BUFFER_SIZE` (line 190). -/
def SH_TOK_BUFFER_SIZE : Nat := 64

/-- Membership in `SH_TOK_DELIMITER`, the string `" \t\r\n\a"`
(line 191): space, tab, carriage return, newline, bell (`'\a'`,
character 7). -/
def isDelim (c : Char) : Bool :=
  c = ' ' || c = '\t' || c = '\r' || c = '\n' || c = Char.ofNat 7

/-- One `strtok(·, SH_TOK_DELIMITER)` step on the rest of the line:
skip leading delimiters; at end of string there is no further token
(`strtok` returns `NULL`), otherwise the token is the maximal run of
non-delimiter characters at the front, and the remainder after it is
where the next `strtok(NULL, ...)` call resumes. -/
def strtokNext (s : List Char) : Option (List Char × List Char) :=
  match s.dropWhile isDelim with
  | [] => none
  | c :: cs =>
    some ((c :: cs).takeWhile (fun x => !isDelim x),
          (c :: cs).dropWhile (fun x => !isDelim x))

/-- The `token = strtok(...); while (token != NULL) { ... }` loop of
`sh_split_line` (lines 208–224), with the token storage bookkeeping.
`oracle k` answers whether the `k`-th allocation of this
`sh_split_line` call succeeds (`k = 0` is the initial `malloc`; the
`realloc` performed whenever `position >= buffer_size` consults the next
index).  `acc` holds the tokens stored so far, most recent first. -/
def sh_split_line_loop (oracle : Nat → Bool) (k : Nat)
    (acc : List (List Char)) (position bufferSize : Nat) (s : List Char) :
    Except Fatal (List (List Char)) :=
  match h : strtokNext s with
  | none =>
    -- token == NULL: tokens[position] = NULL; return tokens.
    .ok acc.reverse
  | some (tok, rest) =>
    -- tokens[position] = token; position++;
    let acc' := tok :: acc
    let position' := position + 1
    if position' ≥ bufferSize then
      -- buffer_size += SH_TOK_BUFFER_SIZE; tokens = realloc(...)
      if oracle k then
        sh_split_line_loop oracle (k + 1) acc' position'
          (bufferSize + SH_TOK_BUFFER_SIZE) rest
      else
        .error ⟨"sh: allocation error\n", EXIT_FAILURE⟩
    else
      sh_split_line_loop oracle k acc' position' bufferSize rest
termination_by s.length
decreasing_by
  all_goals
    unfold strtokNext at h
    cases hd : s.dropWhile isDelim with
    | nil => rw [hd] at h; exact absurd h (by simp)
    | cons c cs =>
      rw [hd] at h
      injection h with h'
      have hc : isDelim c = false := by
        have := List.dropWhile_get_zero_not isDelim s (by rw [hd]; simp)
        simpa [hd] using this
      have h1 : rest = cs.dropWhile (fun x => !isDelim x) := by
        have h2 := congrArg Prod.snd h'
        simp only at h2
        rw [← h2]
        simp [List.dropWhile_cons, hc]
      have h2 : cs.length + 1 ≤ s.length := by
        have := (List.dropWhile_sublist (l := s) isDelim).length_le
        rw [hd] at this
        simpa using this
      have h3 : (cs.dropWhile (fun x => !isDelim x)).length ≤ cs.length :=
        (List.dropWhile_sublist (l := cs) _).length_le
      rw [h1]
      omega

/-- The tokenizer `sh_split_line` (lines 198–227): the initial `malloc` (fatal on
failure), then the `strtok` loop.  The returned null-terminated
`char **` array is modelled as the list of tokens it holds before the
terminating `NULL` (an empty list is the array whose first element is
the `NULL` terminator). -/
def sh_split_line (oracle : Nat → Bool) (line : List Char) :
    Except Fatal (List (List Char)) :=
  if oracle 0 then
    sh_split_line_loop oracle 1 [] 0 SH_TOK_BUFFER_SIZE line
  else
    .error ⟨"sh: allocation error\n", EXIT_FAILURE⟩

/-- The token sequence `sh_split_line` produces, ignoring allocation:
the successive `strtok` results. -/
def strtokAll (s : List Char) : List (List Char) :=
  match h : strtokNext s with
  | none => []
  | some (tok, rest) => tok :: strtokAll rest
termination_by s.length
decreasing_by
  all_goals
    unfold strtokNext at h
    cases hd : s.dropWhile isDelim with
    | nil => rw [hd] at h; exact absurd h (by simp)
    | cons c cs =>
      rw [hd] at h
      injection h with h'
      have hc : isDelim c = false := by
        have := List.dropWhile_get_zero_not isDelim s (by rw [hd]; simp)
        simpa [hd] using this
      have h1 : rest = cs.dropWhile (fun x => !isDelim x) := by
        have h2 := congrArg Prod.snd h'
        simp only at h2
        rw [← h2]
        simp [List.dropWhile_cons, hc]
      have h2 : cs.length + 1 ≤ s.length := by
        have := (List.dropWhile_sublist (l := s) isDelim).length_le
        rw [hd] at this
        simpa using this
      have h3 : (cs.dropWhile (fun x => !isDelim x)).length ≤ cs.length :=
        (List.dropWhile_sublist (l := cs) _).length_le
      rw [h1]
      omega

/-- Specification-side tokenizer, following the spec's words: split the
line at every delimiter character (keeping the empty pieces consecutive
delimiters produce), so that each piece is a run of non-delimiter
characters between delimiters. -/
def splitKeepEmpties : List Char → List (List Char)
  | [] => [[]]
  | c :: cs =>
    if isDelim c then
      [] :: splitKeepEmpties cs
    else
      match splitKeepEmpties cs with
      | [] => [[c]]
      | t :: ts => (c :: t) :: ts

/-- Specification-side tokenizer, following the spec's words: the
delimiter-separated pieces with the empty pieces discarded, i.e. the
maximal runs of non-delimiter characters. -/
def specTokens (l : List Char) : List (List Char) :=
  (splitKeepEmpties l).filter (fun t => !t.isEmpty)

/-- The pieces of `splitKeepEmpties l` after the first one: what remains
once the leading run of non-delimiter characters and the delimiter that
ends it (if any) are consumed.  Auxiliary for relating `splitKeepEmpties`
to the `strtok` iteration. -/
def tailPieces (l : List Char) : List (List Char) :=
  match l.dropWhile (fun c => !isDelim c) with
  | [] => []
  | _ :: l2 => splitKeepEmpties l2

/-! ## Line reader (`src/main.c` lines 240–280) -/

/-- The constant `SH_READ_LINE_BUFFER_SIZE` (line 240). -/
def SH_READ_LINE_BUFFER_SIZE : Nat := 1024

/-- The `while (1)` loop of `sh_read_line` (lines 257–279).  `input` is
the rest of the stdin stream (`getchar` yields `EOF` when it is
exhausted); `acc` holds the characters stored in the buffer so far, most
recent first; `oracle k` answers whether the `k`-th allocation of this
`sh_read_line` call succeeds (the `realloc` whenever
`position >= buffer_size` consults the next index `k`). -/
def sh_read_line_loop (oracle : Nat → Bool) (k : Nat) (acc : List Char)
    (position bufferSize : Nat) (input : List Char) :
    Except Fatal (List Char) :=
  match input with
  | [] =>
    -- c == EOF: buffer[position] = '\0'; return buffer.
    .ok acc.reverse
  | c :: rest =>
    if c = '\n' then
      -- buffer[position] = '\0'; return buffer.
      .ok acc.reverse
    else
      -- buffer[position] = c; position++;
      let acc' := c :: acc
      let position' := position + 1
      if position' ≥ bufferSize then
        -- buffer_size += SH_READ_LINE_BUFFER_SIZE; buffer = realloc(...)
        if oracle k then
          sh_read_line_loop oracle (k + 1) acc' position'
            (bufferSize + SH_READ_LINE_BUFFER_SIZE) rest
        else
          .error ⟨"sh: reallocation error\n", EXIT_FAILURE⟩
      else
        sh_read_line_loop oracle k acc' position' bufferSize rest

/-- The reader `sh_read_line` (lines 246–280): the initial `malloc` (fatal on
failure), then the character loop.  The returned null-terminated buffer
is modelled as the list of characters stored before the `'\0'`. -/
def sh_read_line (oracle : Nat → Bool) (input : List Char) :
    Except Fatal (List Char) :=
  if oracle 0 then
    sh_read_line_loop oracle 1 [] 0 SH_READ_LINE_BUFFER_SIZE input
  else
    .error ⟨"sh: allocation error\n", EXIT_FAILURE⟩

/-! ## Command loop (`src/main.c` lines 295–313) -/

/-- What one iteration of the command loop could dispatch to: a builtin
by name, or the process launcher. -/
inductive DispatchTarget where
  | builtinOp (name : String)
  | launcher
deriving DecidableEq, Repr

/-- The observable effects of one iteration of `sh_loop`'s `do` body. -/
structure LoopIter where
  /-- Whether the prompt `"> "` was printed. -/
  promptShown : Bool
  /-- The result of the `sh_read_line()` call. -/
  lineRead : Except Fatal (List Char)
  /-- What the iteration dispatched the command to, if anything. -/
  dispatched : Option DispatchTarget
deriving Repr

/-- One iteration of the `do { ... } while (status);` body of `sh_loop`
(lines 300–312): `printf("> ")`, then `line = sh_read_line()`.  The
`// Parse` and `// Execute` sections (lines 306–308) contain only
comments and no code, so no tokenizer call and no dispatch of any
builtin or of `sh_launch` occurs, and neither `args` nor `status` is
ever assigned before `free(line); free(args);` and the `while (status)`
test. -/
def sh_loop_iter (oracle : Nat → Bool) (input : List Char) : LoopIter :=
  { promptShown := true
  , lineRead := sh_read_line oracle input
  , dispatched := none }

/-! ## Theorems -/

/-- C2: in the parent branch of `sh_launch`, the `waitpid` loop never
ends on a wait outcome indicating the child merely stopped: a stopped
status makes it repeat the wait, an exhausted status sequence leaves it
waiting, and it returns only a status under which the child exited
normally or was terminated by a signal. -/
theorem sh_wait_loop_ends_only_on_termination :
    (∀ waits s, sh_wait_loop waits = some s →
      WIFEXITED s = true ∨ WIFSIGNALED s = true)
    ∧ (∀ t rest, WIFEXITED t = false → WIFSIGNALED t = false →
        sh_wait_loop (t :: rest) = sh_wait_loop rest)
    ∧ (∀ waits, (∀ s ∈ waits, WIFEXITED s = false ∧ WIFSIGNALED s = false) →
        sh_wait_loop waits = none) := by
  refine ⟨?_, ?_, ?_⟩
  · intro waits
    induction waits with
    | nil => intro s hs; simp [sh_wait_loop] at hs
    | cons t rest ih =>
      intro s hs
      simp only [sh_wait_loop] at hs
      by_cases hE : WIFEXITED t = true
      · rw [if_neg (by simp [hE])] at hs
        cases hs
        exact Or.inl hE
      · by_cases hS : WIFSIGNALED t = true
        · rw [if_neg (by simp [hS])] at hs
          cases hs
          exact Or.inr hS
        · have hE' : WIFEXITED t = false := Bool.not_eq_true _ |>.mp hE
          have hS' : WIFSIGNALED t = false := Bool.not_eq_true _ |>.mp hS
          rw [if_pos (by simp [hE', hS'])] at hs
          exact ih s hs
  · intro t rest hE hS
    simp [sh_wait_loop, hE, hS]
  · intro waits
    induction waits with
    | nil => intro _; rfl
    | cons t rest ih =>
      intro hall
      have ht := hall t (List.mem_cons_self t rest)
      simp only [sh_wait_loop, ht.1, ht.2]
      simpa using ih fun s hs => hall s (List.mem_cons_of_mem t hs)

/-- C2 witness: on the concrete status sequence stopped-then-exited the
wait loop skips the stopped status and ends on the exit status, and on
an all-stopped sequence it is still waiting. -/
theorem sh_wait_loop_ends_only_on_termination_witness :
    (WIFEXITED (WaitStatus.exited 0) = true
      ∨ WIFSIGNALED (WaitStatus.exited 0) = true)
    ∧ sh_wait_loop [WaitStatus.stopped 19, WaitStatus.stopped 19] = none :=
  ⟨sh_wait_loop_ends_only_on_termination.1
      [WaitStatus.stopped 19, WaitStatus.exited 0] (WaitStatus.exited 0)
      (by decide),
   sh_wait_loop_ends_only_on_termination.2.2
      [WaitStatus.stopped 19, WaitStatus.stopped 19] (by decide)⟩

/-- C3: whenever `sh_launch` returns to its caller it returns 1
("continue"); in particular when `fork` fails it reports the error via
`perror` and still returns 1, so a failed external command never stops
the interpreter loop. -/
theorem sh_launch_always_returns_continue :
    (∀ args forkRes execOk waits sig errs,
        sh_launch args forkRes execOk waits = LaunchOutcome.ret sig errs →
        sig = 1)
    ∧ (∀ args execOk waits,
        sh_launch args ForkRes.failed execOk waits =
          LaunchOutcome.ret 1 [ErrMsg.perrorCall "sh"]) := by
  constructor
  · intro args forkRes execOk waits sig errs h
    cases forkRes with
    | child =>
      cases execOk <;> simp [sh_launch] at h
    | failed =>
      simp [sh_launch] at h
      exact h.1.symm
    | parent pid =>
      simp only [sh_launch] at h
      cases hw : sh_wait_loop waits with
      | none => rw [hw] at h; cases h
      | some s =>
        rw [hw] at h
        cases h
        rfl
  · intro args execOk waits
    rfl

/-- C3 witness: at a concrete failed fork the launcher reports the error
and returns the "continue" signal 1. -/
theorem sh_launch_always_returns_continue_witness :
    sh_launch ["ls", "-l"] ForkRes.failed true [] =
      LaunchOutcome.ret 1 [ErrMsg.perrorCall "sh"]
    ∧ 1 = 1 :=
  ⟨sh_launch_always_returns_continue.2 ["ls", "-l"] true [],
   sh_launch_always_returns_continue.1 ["ls", "-l"] ForkRes.failed true []
      1 [ErrMsg.perrorCall "sh"] (by decide)⟩

/-- C4: in the child branch of `sh_launch`, a failed `execvp` makes the
child report the error via `perror` and terminate immediately through
`exit(EXIT_FAILURE)` with the non-zero status `EXIT_FAILURE`; the child
branch never returns into the interpreter code. -/
theorem sh_launch_child_exec_failure_exits :
    (∀ args waits,
        sh_launch args ForkRes.child false waits =
          LaunchOutcome.childExit EXIT_FAILURE [ErrMsg.perrorCall "sh"])
    ∧ EXIT_FAILURE ≠ 0
    ∧ (∀ args execOk waits sig errs,
        sh_launch args ForkRes.child execOk waits ≠
          LaunchOutcome.ret sig errs) := by
  refine ⟨fun args waits => rfl, by decide, ?_⟩
  intro args execOk waits sig errs h
  cases execOk <;> simp [sh_launch] at h

/-- C4 witness: concrete child branch with failing `execvp`. -/
theorem sh_launch_child_exec_failure_exits_witness :
    sh_launch ["nosuch"] ForkRes.child false [] =
      LaunchOutcome.childExit EXIT_FAILURE [ErrMsg.perrorCall "sh"]
    ∧ sh_launch ["nosuch"] ForkRes.child false [] ≠
      LaunchOutcome.ret 1 [] :=
  ⟨sh_launch_child_exec_failure_exits.1 ["nosuch"] [],
   sh_launch_child_exec_failure_exits.2.2 ["nosuch"] false [] 1 []⟩

/-- C7: `sh_cd` always returns 1 ("continue"); with no directory
argument it prints the usage message to `stderr` and leaves the working
directory unchanged; when `chdir` fails it prints the OS error via
`perror` and leaves the working directory unchanged; when `chdir`
succeeds the working directory becomes the requested one. -/
theorem sh_cd_error_handling :
    (∀ os cwd args, (sh_cd os cwd args).1 = 1)
    ∧ (∀ os cwd args, args[1]? = none →
        sh_cd os cwd args =
          (1, cwd, [ErrMsg.fixed "sh: expected argument to \"cd\"\n"]))
    ∧ (∀ os cwd args dir, args[1]? = some dir → os dir = none →
        sh_cd os cwd args = (1, cwd, [ErrMsg.perrorCall "sh"]))
    ∧ (∀ os cwd args dir newCwd, args[1]? = some dir →
        os dir = some newCwd →
        sh_cd os cwd args = (1, newCwd, [])) := by
  refine ⟨?_, ?_, ?_, ?_⟩
  · intro os cwd args
    cases h : args[1]? with
    | none => simp [sh_cd, h]
    | some dir =>
      cases ho : os dir with
      | none => simp [sh_cd, h, ho]
      | some newCwd => simp [sh_cd, h, ho]
  · intro os cwd args h
    simp [sh_cd, h]
  · intro os cwd args dir h1 h2
    simp [sh_cd, h1, h2]
  · intro os cwd args dir newCwd h1 h2
    simp [sh_cd, h1, h2]

/-- C7 witness: concrete `cd` calls — missing argument, failing `chdir`,
succeeding `chdir`. -/
theorem sh_cd_error_handling_witness :
    sh_cd (fun _ => none) "/home" ["cd"] =
      (1, "/home", [ErrMsg.fixed "sh: expected argument to \"cd\"\n"])
    ∧ sh_cd (fun _ => none) "/home" ["cd", "/nope"] =
      (1, "/home", [ErrMsg.perrorCall "sh"])
    ∧ sh_cd (fun d => some d) "/home" ["cd", "/tmp"] = (1, "/tmp", []) :=
  ⟨sh_cd_error_handling.2.1 (fun _ => none) "/home" ["cd"] rfl,
   sh_cd_error_handling.2.2.1 (fun _ => none) "/home" ["cd", "/nope"]
      "/nope" rfl rfl,
   sh_cd_error_handling.2.2.2 (fun d => some d) "/home" ["cd", "/tmp"]
      "/tmp" "/tmp" rfl rfl⟩

/-- C9 (code side of the claim): `sh_exit` returns 0 — the "stop"
signal — for every argument list; its arguments are ignored.  (The rest
of the claim fails on the code: `sh_loop` contains no dispatch at all,
see `sh_loop_iter` and the theorem for C1, so `sh_exit` is never invoked
and cannot terminate the loop.) -/
theorem sh_exit_returns_stop : ∀ args, sh_exit args = 0 :=
  fun _ => rfl

/-- C1 (code side of the claim): no iteration of `sh_loop`'s body
tokenizes the line or dispatches to a builtin or to the process
launcher — the `// Parse` and `// Execute` sections of the loop body are
empty, so every iteration only prints the prompt and reads a line,
contradicting the claimed read–tokenize–dispatch cycle. -/
theorem sh_loop_iter_never_dispatches :
    ∀ oracle input,
      (sh_loop_iter oracle input).dispatched = none
      ∧ (sh_loop_iter oracle input).promptShown = true
      ∧ (sh_loop_iter oracle input).lineRead = sh_read_line oracle input :=
  fun _ _ => ⟨rfl, rfl, rfl⟩

/-- Unfolding `strtokAll` when `strtok` yields no further token. -/
theorem strtokAll_of_none {s : List Char} (h : strtokNext s = none) :
    strtokAll s = [] := by
  unfold strtokAll
  split
  · rfl
  · rename_i tok rest heq
    rw [h] at heq
    simp at heq

/-- Unfolding `strtokAll` when `strtok` yields a token. -/
theorem strtokAll_of_some {s tok rest : List Char}
    (h : strtokNext s = some (tok, rest)) :
    strtokAll s = tok :: strtokAll rest := by
  rw [strtokAll]
  split
  · rename_i heq
    rw [h] at heq
    simp at heq
  · rename_i tok' rest' heq
    rw [h] at heq
    cases heq
    rfl

/-- A leading delimiter character is skipped by the `strtok` step. -/
theorem strtokNext_cons_delim {c : Char} (l : List Char)
    (hc : isDelim c = true) : strtokNext (c :: l) = strtokNext l := by
  unfold strtokNext
  rw [List.dropWhile_cons_of_pos hc]

/-- The `strtok` step on a string starting with a non-delimiter: the
token is the leading run of non-delimiters, the rest follows it. -/
theorem strtokNext_cons_nondelim {c : Char} (l : List Char)
    (hc : isDelim c = false) :
    strtokNext (c :: l) =
      some ((c :: l).takeWhile (fun x => !isDelim x),
            (c :: l).dropWhile (fun x => !isDelim x)) := by
  unfold strtokNext
  rw [List.dropWhile_cons_of_neg (by simp [hc])]

/-- The iteration `strtokAll` skips a leading delimiter. -/
theorem strtokAll_cons_delim {c : Char} (l : List Char)
    (hc : isDelim c = true) : strtokAll (c :: l) = strtokAll l := by
  cases h : strtokNext l with
  | none =>
    rw [strtokAll_of_none h, strtokAll_of_none ((strtokNext_cons_delim l hc).trans h)]
  | some tr =>
    obtain ⟨tok, rest⟩ := tr
    rw [strtokAll_of_some h,
        strtokAll_of_some ((strtokNext_cons_delim l hc).trans h)]

/-- The pieces of `splitKeepEmpties` always consist of the leading non-delimiter run
followed by the pieces of the remainder. -/
theorem splitKeepEmpties_eq (l : List Char) :
    splitKeepEmpties l = l.takeWhile (fun c => !isDelim c) :: tailPieces l := by
  induction l with
  | nil => rfl
  | cons c cs ih =>
    by_cases hc : isDelim c = true
    · simp only [splitKeepEmpties, hc, if_true]
      rw [List.takeWhile_cons_of_neg (by simp [hc])]
      unfold tailPieces
      rw [List.dropWhile_cons_of_neg (by simp [hc])]
    · have hc' : isDelim c = false := by simpa using hc
      have hdef : splitKeepEmpties (c :: cs) =
          if isDelim c then [] :: splitKeepEmpties cs
          else
            match splitKeepEmpties cs with
            | [] => [[c]]
            | t :: ts => (c :: t) :: ts := rfl
      rw [hdef, hc', ih]
      rw [List.takeWhile_cons_of_pos (by simp [hc'])]
      unfold tailPieces
      rw [List.dropWhile_cons_of_pos (by simp [hc'])]
      rfl

/-- Every piece `splitKeepEmpties` produces contains no delimiter
character. -/
theorem splitKeepEmpties_no_delim (l : List Char) :
    ∀ t ∈ splitKeepEmpties l, ∀ c ∈ t, isDelim c = false := by
  induction l with
  | nil =>
    intro t ht c hc
    simp [splitKeepEmpties] at ht
    subst ht
    simp at hc
  | cons a as ih =>
    intro t ht c hc
    by_cases ha : isDelim a = true
    · simp only [splitKeepEmpties, ha, if_true] at ht
      rcases List.mem_cons.mp ht with h | h
      · subst h; simp at hc
      · exact ih t h c hc
    · have ha' : isDelim a = false := by simpa using ha
      simp only [splitKeepEmpties, ha', if_false] at ht
      cases hsp : splitKeepEmpties as with
      | nil =>
        rw [hsp] at ht
        simp at ht
        subst ht
        simp at hc
        subst hc
        exact ha'
      | cons t0 ts =>
        rw [hsp] at ht
        rcases List.mem_cons.mp ht with h | h
        · subst h
          rcases List.mem_cons.mp hc with h | h
          · subst h; exact ha'
          · exact ih t0 (by rw [hsp]; exact List.mem_cons_self t0 ts) c h
        · exact ih t (by rw [hsp]; exact List.mem_cons_of_mem t0 h) c hc

/-- The `strtok` iteration computes exactly the spec-side token list:
the delimiter-split pieces with empties discarded (fuel-indexed form). -/
theorem strtokAll_eq_specTokens_aux :
    ∀ n (l : List Char), l.length ≤ n → strtokAll l = specTokens l := by
  intro n
  induction n with
  | zero =>
    intro l hl
    have hnil : l = [] := List.length_eq_zero.mp (Nat.le_zero.mp hl)
    subst hnil
    rw [strtokAll_of_none (show strtokNext ([] : List Char) = none from rfl)]
    rfl
  | succ n ih =>
    intro l hl
    cases l with
    | nil =>
      rw [strtokAll_of_none (show strtokNext ([] : List Char) = none from rfl)]
      rfl
    | cons c cs =>
      by_cases hc : isDelim c = true
      · rw [strtokAll_cons_delim cs hc]
        have hspec : specTokens (c :: cs) = specTokens cs := by
          unfold specTokens
          have hstep : splitKeepEmpties (c :: cs) = [] :: splitKeepEmpties cs := by
            have hdef : splitKeepEmpties (c :: cs) =
                if isDelim c then [] :: splitKeepEmpties cs
                else
                  match splitKeepEmpties cs with
                  | [] => [[c]]
                  | t :: ts => (c :: t) :: ts := rfl
            rw [hdef, hc]
            rfl
          rw [hstep, List.filter_cons_of_neg (by simp)]
        rw [hspec]
        exact ih cs (Nat.le_of_succ_le_succ (by simpa using hl))
      · have hc' : isDelim c = false := by simpa using hc
        have hnext := strtokNext_cons_nondelim cs hc'
        rw [strtokAll_of_some hnext]
        unfold specTokens
        rw [splitKeepEmpties_eq (c :: cs)]
        rw [List.takeWhile_cons_of_pos (p := fun x => !isDelim x) (by simp [hc'])]
        rw [List.filter_cons_of_pos (by simp)]
        congr 1
        have hrest : (c :: cs).dropWhile (fun x => !isDelim x) =
            cs.dropWhile (fun x => !isDelim x) := by
          rw [List.dropWhile_cons_of_pos (by simp [hc'])]
        rw [hrest]
        unfold tailPieces
        rw [List.dropWhile_cons_of_pos (p := fun x => !isDelim x) (by simp [hc'])]
        cases hd : cs.dropWhile (fun x => !isDelim x) with
        | nil =>
          rw [strtokAll_of_none (show strtokNext ([] : List Char) = none from rfl)]
          rfl
        | cons d l2 =>
          have hdd : isDelim d = true := by
            have h0 : 0 < (cs.dropWhile (fun x => !isDelim x)).length := by
              rw [hd]; simp
            have := List.dropWhile_get_zero_not (fun x => !isDelim x) cs h0
            have hget : (cs.dropWhile (fun x => !isDelim x)).get ⟨0, h0⟩ = d := by
              simp [hd]
            rw [hget] at this
            simpa using this
          rw [strtokAll_cons_delim l2 hdd]
          have hl2 : l2.length ≤ n := by
            have hle : (cs.dropWhile (fun x => !isDelim x)).length ≤ cs.length :=
              (List.dropWhile_sublist (l := cs) _).length_le
            rw [hd] at hle
            have hcs : cs.length ≤ n := Nat.le_of_succ_le_succ (by simpa using hl)
            simp at hle
            omega
          exact ih l2 hl2

/-- The `strtok` iteration computes exactly the spec-side token list. -/
theorem strtokAll_eq_specTokens (l : List Char) : strtokAll l = specTokens l :=
  strtokAll_eq_specTokens_aux l.length l (Nat.le_refl _)

/-- Unfolding `sh_split_line_loop` when no token remains. -/
theorem sh_split_line_loop_of_none {s : List Char} (h : strtokNext s = none)
    (oracle : Nat → Bool) (k : Nat) (acc : List (List Char))
    (position bufferSize : Nat) :
    sh_split_line_loop oracle k acc position bufferSize s =
      Except.ok acc.reverse := by
  rw [sh_split_line_loop]
  split
  · rfl
  · rename_i tok rest heq
    rw [h] at heq
    simp at heq

/-- Unfolding `sh_split_line_loop` when a token is found. -/
theorem sh_split_line_loop_of_some {s tok rest : List Char}
    (h : strtokNext s = some (tok, rest)) (oracle : Nat → Bool) (k : Nat)
    (acc : List (List Char)) (position bufferSize : Nat) :
    sh_split_line_loop oracle k acc position bufferSize s =
      if position + 1 ≥ bufferSize then
        if oracle k then
          sh_split_line_loop oracle (k + 1) (tok :: acc) (position + 1)
            (bufferSize + SH_TOK_BUFFER_SIZE) rest
        else
          Except.error ⟨"sh: allocation error\n", EXIT_FAILURE⟩
      else
        sh_split_line_loop oracle k (tok :: acc) (position + 1) bufferSize rest := by
  rw [sh_split_line_loop]
  split
  · rename_i heq
    rw [h] at heq
    simp at heq
  · rename_i tok' rest' heq
    rw [h] at heq
    cases heq
    rfl

/-- With every allocation succeeding, the tokenizer loop returns the
stored tokens followed by the remaining `strtok` results. -/
theorem sh_split_line_loop_ok :
    ∀ n (s : List Char), s.length ≤ n →
      ∀ (k : Nat) (acc : List (List Char)) (position bufferSize : Nat),
        sh_split_line_loop (fun _ => true) k acc position bufferSize s =
          Except.ok (acc.reverse ++ strtokAll s) := by
  intro n
  induction n with
  | zero =>
    intro s hs k acc position bufferSize
    have hnil : s = [] := List.length_eq_zero.mp (Nat.le_zero.mp hs)
    subst hnil
    rw [sh_split_line_loop_of_none
          (show strtokNext ([] : List Char) = none from rfl),
        strtokAll_of_none (show strtokNext ([] : List Char) = none from rfl),
        List.append_nil]
  | succ n ih =>
    intro s hs k acc position bufferSize
    cases hnext : strtokNext s with
    | none =>
      rw [sh_split_line_loop_of_none hnext, strtokAll_of_none hnext,
          List.append_nil]
    | some tr =>
      obtain ⟨tok, rest⟩ := tr
      have hlen : rest.length ≤ n := by
        have hlt : rest.length < s.length := by
          unfold strtokNext at hnext
          cases hd : s.dropWhile isDelim with
          | nil => rw [hd] at hnext; simp at hnext
          | cons c cs =>
            rw [hd] at hnext
            have hc : isDelim c = false := by
              have h0 : 0 < (s.dropWhile isDelim).length := by rw [hd]; simp
              have := List.dropWhile_get_zero_not isDelim s h0
              have hget : (s.dropWhile isDelim).get ⟨0, h0⟩ = c := by simp [hd]
              rw [hget] at this
              simpa using this
            have h1 : rest = cs.dropWhile (fun x => !isDelim x) := by
              have h2 := congrArg Prod.snd (Option.some.inj hnext)
              simp only at h2
              rw [← h2]
              simp [List.dropWhile_cons, hc]
            have h2 : cs.length + 1 ≤ s.length := by
              have := (List.dropWhile_sublist (l := s) isDelim).length_le
              rw [hd] at this
              simpa using this
            have h3 : (cs.dropWhile (fun x => !isDelim x)).length ≤ cs.length :=
              (List.dropWhile_sublist (l := cs) _).length_le
            rw [h1]
            omega
        omega
      rw [sh_split_line_loop_of_some hnext, strtokAll_of_some hnext]
      by_cases hpb : position + 1 ≥ bufferSize
      · rw [if_pos hpb, if_pos (show ((fun _ : Nat => true) k) = true from rfl)]
        rw [ih rest hlen (k + 1) (tok :: acc) (position + 1)
            (bufferSize + SH_TOK_BUFFER_SIZE)]
        simp
      · rw [if_neg hpb]
        rw [ih rest hlen k (tok :: acc) (position + 1) bufferSize]
        simp

/-- With every allocation succeeding, `sh_split_line` returns the
`strtok` token sequence. -/
theorem sh_split_line_ok (line : List Char) :
    sh_split_line (fun _ => true) line = Except.ok (strtokAll line) := by
  unfold sh_split_line
  rw [if_pos (show ((fun _ : Nat => true) 0) = true from rfl)]
  rw [sh_split_line_loop_ok line.length line (Nat.le_refl _) 1 [] 0
      SH_TOK_BUFFER_SIZE]
  rfl

/-- C6: `sh_split_line` splits the line on runs of the whitespace
characters of `SH_TOK_DELIMITER` treated as a single delimiter: its
result is exactly the spec-side token list (the maximal runs of
non-delimiter characters, in order), every produced token is nonempty
and free of delimiter characters, and an empty or all-whitespace line
produces the token array whose first element is the `NULL` terminator
(the empty token list). -/
theorem sh_split_line_whitespace_tokenization (l : List Char) :
    sh_split_line (fun _ => true) l = Except.ok (specTokens l)
    ∧ (∀ t ∈ specTokens l, t ≠ [] ∧ ∀ c ∈ t, isDelim c = false)
    ∧ ((∀ c ∈ l, isDelim c = true) →
        sh_split_line (fun _ => true) l = Except.ok []) := by
  refine ⟨?_, ?_, ?_⟩
  · rw [sh_split_line_ok, strtokAll_eq_specTokens]
  · intro t ht
    have hmem := List.mem_filter.mp ht
    refine ⟨?_, splitKeepEmpties_no_delim l t hmem.1⟩
    intro hemp
    subst hemp
    simp at hmem
  · intro hall
    rw [sh_split_line_ok]
    rw [strtokAll_of_none (by
      unfold strtokNext
      rw [List.dropWhile_eq_nil_iff.mpr (by
        intro x hx
        simp [hall x hx])])]

/-- C6 witness: a concrete all-whitespace line yields the empty token
array, and the concrete token produced from `"a "` is nonempty and
delimiter-free. -/
theorem sh_split_line_whitespace_tokenization_witness :
    sh_split_line (fun _ => true) [' ', '\t'] = Except.ok []
    ∧ (['a'] ≠ [] ∧ ∀ c ∈ ['a'], isDelim c = false) :=
  ⟨(sh_split_line_whitespace_tokenization [' ', '\t']).2.2 (by decide),
   (sh_split_line_whitespace_tokenization ['a', ' ']).2.1 ['a'] (by decide)⟩

/-- With every allocation succeeding, the read loop returns the stored
characters followed by the input up to (not including) the first
newline or end of stream. -/
theorem sh_read_line_loop_ok (input : List Char) :
    ∀ (k : Nat) (acc : List Char) (position bufferSize : Nat),
      sh_read_line_loop (fun _ => true) k acc position bufferSize input =
        Except.ok (acc.reverse ++ input.takeWhile (fun c => c != '\n')) := by
  induction input with
  | nil =>
    intro k acc position bufferSize
    simp [sh_read_line_loop]
  | cons c rest ih =>
    intro k acc position bufferSize
    by_cases hc : c = '\n'
    · subst hc
      simp [sh_read_line_loop, List.takeWhile_cons]
    · simp only [sh_read_line_loop]
      rw [if_neg hc]
      rw [List.takeWhile_cons_of_pos (by simp [hc])]
      by_cases hpb : position + 1 ≥ bufferSize
      · rw [if_pos hpb, if_pos trivial, ih]
        simp
      · rw [if_neg hpb, ih]
        simp

/-- With every allocation succeeding, `sh_read_line` returns the input
up to the first newline or end of stream. -/
theorem sh_read_line_ok (input : List Char) :
    sh_read_line (fun _ => true) input =
      Except.ok (input.takeWhile (fun c => c != '\n')) := by
  unfold sh_read_line
  rw [if_pos (show ((fun _ : Nat => true) 0) = true from rfl),
      sh_read_line_loop_ok]
  rfl

/-- The function `takeWhile` consumes exactly a leading block that satisfies the
predicate when the next element refutes it. -/
theorem takeWhile_append_stops {p : Char → Bool} :
    ∀ (l1 : List Char) (a : Char) (l2 : List Char),
      (∀ x ∈ l1, p x = true) → p a = false →
      (l1 ++ a :: l2).takeWhile p = l1 := by
  intro l1
  induction l1 with
  | nil =>
    intro a l2 _ ha
    simp [List.takeWhile_cons, ha]
  | cons x xs ih =>
    intro a l2 hall ha
    rw [List.cons_append,
        List.takeWhile_cons_of_pos (hall x (List.mem_cons_self x xs)),
        ih a l2 (fun y hy => hall y (List.mem_cons_of_mem x hy)) ha]

/-- C10: the Line returned by `sh_read_line` never contains the newline
that ended the read — the delimiter is replaced by the terminating null
rather than stored — and a line entered as text followed by a newline is
returned as exactly that text; the same holds for a final line ended by
end of stream. -/
theorem sh_read_line_newline_not_stored :
    (∀ input line, sh_read_line (fun _ => true) input = Except.ok line →
        '\n' ∉ line)
    ∧ (∀ text rest : List Char, '\n' ∉ text →
        sh_read_line (fun _ => true) (text ++ '\n' :: rest) = Except.ok text)
    ∧ (∀ text : List Char, '\n' ∉ text →
        sh_read_line (fun _ => true) text = Except.ok text) := by
  refine ⟨?_, ?_, ?_⟩
  · intro input line h
    rw [sh_read_line_ok] at h
    cases Except.ok.inj h
    intro hmem
    have := List.mem_takeWhile_imp hmem
    simp at this
  · intro text rest hnot
    rw [sh_read_line_ok]
    rw [takeWhile_append_stops text '\n' rest
        (fun x hx => by
          have : x ≠ '\n' := fun hx' => hnot (hx' ▸ hx)
          simpa using this)
        (by simp)]
  · intro text hnot
    rw [sh_read_line_ok]
    congr 1
    rw [List.takeWhile_eq_self_iff]
    intro x hx
    have : x ≠ '\n' := fun hx' => hnot (hx' ▸ hx)
    simpa using this

/-- C10 witness: the concrete input `"ab\nc"` is read back as exactly
`"ab"`, which does not contain the newline. -/
theorem sh_read_line_newline_not_stored_witness :
    sh_read_line (fun _ => true) ['a', 'b', '\n', 'c'] = Except.ok ['a', 'b']
    ∧ '\n' ∉ (['a', 'b'] : List Char) :=
  ⟨sh_read_line_newline_not_stored.2.1 ['a', 'b'] ['c'] (by decide),
   sh_read_line_newline_not_stored.1 ['a', 'b', '\n', 'c'] ['a', 'b']
     (sh_read_line_newline_not_stored.2.1 ['a', 'b'] ['c'] (by decide))⟩

/-- C5 counterexample: at the concrete input stream that is already at
end-of-stream (no characters read), `sh_read_line` returns the ordinary
empty Line — the very same value it returns for the normal empty command
line consisting of a single newline.  There is no distinct EndOfInput
result: the code's comment says "If we hit EOF, replace it with a null
character and return", and it does exactly that. -/
theorem sh_read_line_eof_indistinguishable :
    sh_read_line (fun _ => true) [] = Except.ok []
    ∧ sh_read_line (fun _ => true) [] =
        sh_read_line (fun _ => true) ['\n'] := by
  constructor
  · rw [sh_read_line_ok]
    rfl
  · rw [sh_read_line_ok, sh_read_line_ok]
    rfl

/-- C5 (amended): `sh_read_line` never signals end-of-input distinctly:
for every input stream it returns an ordinary Line, and end-of-stream
seen with no characters read yields the empty Line, the same value as a
normal empty command line. -/
theorem sh_read_line_returns_ordinary_line :
    (∀ input : List Char, ∃ line,
        sh_read_line (fun _ => true) input = Except.ok line)
    ∧ sh_read_line (fun _ => true) [] = Except.ok ([] : List Char) := by
  constructor
  · intro input
    exact ⟨_, sh_read_line_ok input⟩
  · rw [sh_read_line_ok]
    rfl

/-- Consuming a token strictly shortens the rest of the line. -/
theorem strtokNext_rest_shorter {s tok rest : List Char}
    (h : strtokNext s = some (tok, rest)) : rest.length < s.length := by
  unfold strtokNext at h
  cases hd : s.dropWhile isDelim with
  | nil =>
    rw [hd] at h
    simp at h
  | cons c cs =>
    rw [hd] at h
    have h1 : rest = cs.dropWhile (fun x => !isDelim x) := by
      have hc : isDelim c = false := by
        have h0 : 0 < (s.dropWhile isDelim).length := by rw [hd]; simp
        have := List.dropWhile_get_zero_not isDelim s h0
        have hget : (s.dropWhile isDelim).get ⟨0, h0⟩ = c := by simp [hd]
        rw [hget] at this
        simpa using this
      have h2 := congrArg Prod.snd (Option.some.inj h)
      simp only at h2
      rw [← h2]
      simp [List.dropWhile_cons, hc]
    have h2 : cs.length + 1 ≤ s.length := by
      have := (List.dropWhile_sublist (l := s) isDelim).length_le
      rw [hd] at this
      simpa using this
    have h3 : (cs.dropWhile (fun x => !isDelim x)).length ≤ cs.length :=
      (List.dropWhile_sublist (l := cs) _).length_le
    rw [h1]
    omega

/-- Every fatal result the read loop produces carries the reallocation
message and the `EXIT_FAILURE` status. -/
theorem sh_read_line_loop_error (input : List Char) :
    ∀ (oracle : Nat → Bool) (k : Nat) (acc : List Char)
      (position bufferSize : Nat) (e : Fatal),
      sh_read_line_loop oracle k acc position bufferSize input =
        Except.error e →
      e = ⟨"sh: reallocation error\n", EXIT_FAILURE⟩ := by
  induction input with
  | nil =>
    intro oracle k acc position bufferSize e h
    simp [sh_read_line_loop] at h
  | cons c rest ih =>
    intro oracle k acc position bufferSize e h
    simp only [sh_read_line_loop] at h
    by_cases hc : c = '\n'
    · rw [if_pos hc] at h
      simp at h
    · rw [if_neg hc] at h
      by_cases hpb : position + 1 ≥ bufferSize
      · rw [if_pos hpb] at h
        by_cases ho : oracle k = true
        · rw [if_pos ho] at h
          exact ih oracle (k + 1) (c :: acc) (position + 1)
            (bufferSize + SH_READ_LINE_BUFFER_SIZE) e h
        · rw [if_neg ho] at h
          exact (Except.error.inj h).symm
      · rw [if_neg hpb] at h
        exact ih oracle k (c :: acc) (position + 1) bufferSize e h

/-- Every fatal result the tokenizer loop produces carries the
allocation message and the `EXIT_FAILURE` status (fuel-indexed). -/
theorem sh_split_line_loop_error :
    ∀ n (s : List Char), s.length ≤ n →
      ∀ (oracle : Nat → Bool) (k : Nat) (acc : List (List Char))
        (position bufferSize : Nat) (e : Fatal),
        sh_split_line_loop oracle k acc position bufferSize s =
          Except.error e →
        e = ⟨"sh: allocation error\n", EXIT_FAILURE⟩ := by
  intro n
  induction n with
  | zero =>
    intro s hs oracle k acc position bufferSize e h
    have hnil : s = [] := List.length_eq_zero.mp (Nat.le_zero.mp hs)
    subst hnil
    rw [sh_split_line_loop_of_none
        (show strtokNext ([] : List Char) = none from rfl)] at h
    simp at h
  | succ n ih =>
    intro s hs oracle k acc position bufferSize e h
    cases hnext : strtokNext s with
    | none =>
      rw [sh_split_line_loop_of_none hnext] at h
      simp at h
    | some tr =>
      obtain ⟨tok, rest⟩ := tr
      have hlen : rest.length ≤ n := by
        have := strtokNext_rest_shorter hnext
        omega
      rw [sh_split_line_loop_of_some hnext] at h
      by_cases hpb : position + 1 ≥ bufferSize
      · rw [if_pos hpb] at h
        by_cases ho : oracle k = true
        · rw [if_pos ho] at h
          exact ih rest hlen oracle (k + 1) (tok :: acc) (position + 1)
            (bufferSize + SH_TOK_BUFFER_SIZE) e h
        · rw [if_neg ho] at h
          exact (Except.error.inj h).symm
      · rw [if_neg hpb] at h
        exact ih rest hlen oracle k (tok :: acc) (position + 1) bufferSize e h

/-- C8: allocation failure during line-buffer or token-buffer management
is fatal: every error outcome of `sh_read_line` or `sh_split_line`
prints its fixed message and carries exit status `EXIT_FAILURE`; a
failed initial `malloc` makes either function terminate the process at
once, and a failed `realloc` at a growth point makes the respective loop
terminate the process at once — an allocation failure is never turned
into an ordinary return value. -/
theorem allocation_failure_is_fatal :
    (∀ (oracle : Nat → Bool) (input : List Char) (e : Fatal),
        sh_read_line oracle input = Except.error e →
        e.status = EXIT_FAILURE ∧
          (e.msg = "sh: allocation error\n" ∨
           e.msg = "sh: reallocation error\n"))
    ∧ (∀ (oracle : Nat → Bool) (line : List Char) (e : Fatal),
        sh_split_line oracle line = Except.error e →
        e.status = EXIT_FAILURE ∧ e.msg = "sh: allocation error\n")
    ∧ (∀ (oracle : Nat → Bool) (input : List Char), oracle 0 = false →
        sh_read_line oracle input =
          Except.error ⟨"sh: allocation error\n", EXIT_FAILURE⟩)
    ∧ (∀ (oracle : Nat → Bool) (line : List Char), oracle 0 = false →
        sh_split_line oracle line =
          Except.error ⟨"sh: allocation error\n", EXIT_FAILURE⟩)
    ∧ (∀ (oracle : Nat → Bool) (k : Nat) (acc : List Char)
          (position bufferSize : Nat) (c : Char) (rest : List Char),
        c ≠ '\n' → position + 1 ≥ bufferSize → oracle k = false →
        sh_read_line_loop oracle k acc position bufferSize (c :: rest) =
          Except.error ⟨"sh: reallocation error\n", EXIT_FAILURE⟩)
    ∧ (∀ (oracle : Nat → Bool) (k : Nat) (acc : List (List Char))
          (position bufferSize : Nat) (s tok rest : List Char),
        strtokNext s = some (tok, rest) → position + 1 ≥ bufferSize →
        oracle k = false →
        sh_split_line_loop oracle k acc position bufferSize s =
          Except.error ⟨"sh: allocation error\n", EXIT_FAILURE⟩) := by
  refine ⟨?_, ?_, ?_, ?_, ?_, ?_⟩
  · intro oracle input e h
    unfold sh_read_line at h
    by_cases ho : oracle 0 = true
    · rw [if_pos ho] at h
      have := sh_read_line_loop_error input oracle 1 [] 0
        SH_READ_LINE_BUFFER_SIZE e h
      subst this
      exact ⟨rfl, Or.inr rfl⟩
    · rw [if_neg ho] at h
      have := (Except.error.inj h).symm
      subst this
      exact ⟨rfl, Or.inl rfl⟩
  · intro oracle line e h
    unfold sh_split_line at h
    by_cases ho : oracle 0 = true
    · rw [if_pos ho] at h
      have := sh_split_line_loop_error line.length line (Nat.le_refl _)
        oracle 1 [] 0 SH_TOK_BUFFER_SIZE e h
      subst this
      exact ⟨rfl, rfl⟩
    · rw [if_neg ho] at h
      have := (Except.error.inj h).symm
      subst this
      exact ⟨rfl, rfl⟩
  · intro oracle input ho
    unfold sh_read_line
    rw [if_neg (by simp [ho])]
  · intro oracle line ho
    unfold sh_split_line
    rw [if_neg (by simp [ho])]
  · intro oracle k acc position bufferSize c rest hc hpb ho
    simp only [sh_read_line_loop]
    rw [if_neg hc, if_pos hpb, if_neg (by simp [ho])]
  · intro oracle k acc position bufferSize s tok rest hnext hpb ho
    rw [sh_split_line_loop_of_some hnext, if_pos hpb,
        if_neg (by simp [ho])]

/-- C8 witness: with every allocation refused, reading a line and
splitting a line both end in the fatal allocation error with status
`EXIT_FAILURE`, and a failed reallocation at a concrete growth point of
either loop is fatal too. -/
theorem allocation_failure_is_fatal_witness :
    sh_read_line (fun _ => false) ['a'] =
      Except.error ⟨"sh: allocation error\n", EXIT_FAILURE⟩
    ∧ sh_split_line (fun _ => false) ['a'] =
      Except.error ⟨"sh: allocation error\n", EXIT_FAILURE⟩
    ∧ sh_read_line_loop (fun _ => false) 1 [] 1023 1024 ['b'] =
      Except.error ⟨"sh: reallocation error\n", EXIT_FAILURE⟩
    ∧ sh_split_line_loop (fun _ => false) 1 [] 63 64 ['b'] =
      Except.error ⟨"sh: allocation error\n", EXIT_FAILURE⟩ :=
  ⟨allocation_failure_is_fatal.2.2.1 (fun _ => false) ['a'] rfl,
   allocation_failure_is_fatal.2.2.2.1 (fun _ => false) ['a'] rfl,
   allocation_failure_is_fatal.2.2.2.2.1 (fun _ => false) 1 [] 1023 1024
     'b' [] (by decide) (by decide) rfl,
   allocation_failure_is_fatal.2.2.2.2.2 (fun _ => false) 1 [] 63 64
     ['b'] ['b'] [] (by decide) (by decide) rfl⟩
